import Mathlib

/-!
Verification of the volatility-regime web app (`src/app.py`) against its
natural-language specification.  The app downloads closing prices, keeps the
Friday rows, computes weekly percentage returns, fits a two-state Gaussian
HMM (via the `hmmlearn` library), decodes a state path, and labels the two
states "High Vol" / "Low Vol" by comparing within-state sample variances.

The embedding below models prices and returns as exact rationals; pandas'
NaN-producing sample variance is modelled as `Option ℚ` (with `none` playing
the role of NaN), and the float comparison `var_0 > var_1` is modelled by a
comparison that is `false` whenever either side is NaN, matching IEEE-754
semantics of `>` on NaN.
-/

namespace VolApp

/-- The regime labels the app assigns (`'High Vol'` / `'Low Vol'`,
`src/app.py` lines 52-55). -/
inductive Label where
  | highVol : Label
  | lowVol : Label
deriving DecidableEq

/-- pandas `dayofweek` for a date given as a day count since 1970-01-01
(which was a Thursday, weekday index 3); Monday = 0, Friday = 4. -/
def dayofweek (d : Nat) : Nat := (d + 3) % 7

/-- `src/app.py` line 37: `fridays = df[df['weekday'] == 4]` — keep exactly
the rows whose date falls on a Friday.  A row is a (date, closing price)
pair. -/
def fridaysOf (rows : List (Nat × ℚ)) : List (Nat × ℚ) :=
  rows.filter (fun r => dayofweek r.1 == 4)

/-- `src/app.py` line 38: `fridays[ticker].pct_change() * 100`.  pandas
`pct_change` computes `cur / prev - 1` with an undefined (NaN) first entry;
the app multiplies by 100.  NaN is modelled as `none`. -/
def returnsColumn (prices : List ℚ) : List (Option ℚ) :=
  none :: List.zipWith (fun prev cur => some (100 * (cur / prev - 1))) prices prices.tail

/-- `src/app.py` line 39: `.iloc[1:]` drops the first row (the NaN return),
so the observation sequence is the tail of the returns column.  All
remaining entries are defined, so `reduceOption` only strips the `some`
wrappers. -/
def appObservations (prices : List ℚ) : List ℚ :=
  ((returnsColumn prices).tail).reduceOption

/-- Arithmetic mean, as pandas computes it inside `.var()`. -/
def listMean (xs : List ℚ) : ℚ := xs.sum / xs.length

/-- pandas `Series.var()` with its default `ddof=1`: the sample variance
`Σ (x - mean)² / (n - 1)`.  On an empty or singleton series pandas returns
NaN (modelled as `none`). -/
def sampleVar (xs : List ℚ) : Option ℚ :=
  if xs.length < 2 then none
  else some ((xs.map (fun x => (x - listMean xs) ^ 2)).sum / ((xs.length : ℚ) - 1))

/-- `src/app.py` lines 50-51: `fridays[states == k]['returns']` — the
returns at the positions decoded into state `k`. -/
def restrictToState (rs : List ℚ) (sts : List (Fin 2)) (k : Fin 2) : List ℚ :=
  ((rs.zip sts).filter (fun p => p.2 == k)).map Prod.fst

/-- IEEE-754 `>` lifted to NaN-aware values: any comparison against NaN is
false, which is exactly how Python evaluates `var_0 > var_1` when a pandas
variance is NaN. -/
def gtNaN : Option ℚ → Option ℚ → Bool
  | some a, some b => decide (b < a)
  | _, _ => false

/-- `src/app.py` lines 50-55: compute the within-state sample variances and
build the label dictionary — `{0: 'High Vol', 1: 'Low Vol'}` when
`var_0 > var_1`, else `{1: 'High Vol', 0: 'Low Vol'}`. -/
def labelsOf (rs : List ℚ) (sts : List (Fin 2)) : Fin 2 → Label :=
  let v0 := sampleVar (restrictToState rs sts 0)
  let v1 := sampleVar (restrictToState rs sts 1)
  if gtNaN v0 v1 then
    fun s => if s = 0 then Label.highVol else Label.lowVol
  else
    fun s => if s = 1 then Label.highVol else Label.lowVol

/-- The covariance structures `hmmlearn.hmm.GaussianHMM` accepts. -/
inductive CovarianceType where
  | spherical : CovarianceType
  | diag : CovarianceType
  | full : CovarianceType
  | tied : CovarianceType
deriving DecidableEq

/-- The constructor arguments of `hmmlearn.hmm.GaussianHMM` that
`src/app.py` line 46 sets; `random_state = none` would mean the library
draws its seed from hidden global state. -/
structure GaussianHMMConfig where
  n_components : Nat
  covariance_type : CovarianceType
  n_iter : Nat
  random_state : Option Nat

/-- `src/app.py` line 46:
`hmm.GaussianHMM(n_components=2, covariance_type="full", n_iter=10000, random_state=2606)`. -/
def appModelConfig : GaussianHMMConfig :=
  { n_components := 2
    covariance_type := CovarianceType.full
    n_iter := 10000
    random_state := some 2606 }

/-- Modelled from the spec: the fitted `hmmlearn.hmm.GaussianHMM` model
(`model.fit` / `model.predict` live in the third-party library, not in
`src/`).  Per §3 the trained parameters are `K = 2` states with an initial
distribution, a row-stochastic transition matrix and per-state Gaussian
emission parameters; per §4.4 `predict` (Viterbi decoding) is a pure
function of the frozen parameters and the observation sequence. -/
structure HMMModel where
  startprob : Fin 2 → ℚ
  transmat : Fin 2 → Fin 2 → ℚ
  means : Fin 2 → ℚ
  covars : Fin 2 → ℚ
  decode : List ℚ → List (Fin 2)

/-- Modelled from the spec: Baum-Welch training (`model.fit`, inside
`hmmlearn`, not in `src/`).  Per §4.3 and §5 the trainer is a deterministic
function of the observation sequence and the explicit initialization seed —
no hidden global random state. -/
def TrainerFn : Type := Nat → List ℚ → HMMModel

/-- `src/app.py` lines 46-57: construct the model with seed 2606, fit and
decode the observation sequence, and build the label dictionary.  The
third-party trainer is passed in as a function (see `TrainerFn`). -/
def runHMMStage (train : TrainerFn) (obs : List ℚ) :
    HMMModel × List (Fin 2) × (Fin 2 → Label) :=
  let model := train 2606 obs
  let states := model.decode obs
  (model, states, labelsOf obs states)

/-- `src/app.py` lines 34-48 composed: filter the Friday rows, take the
percentage returns of their closing prices (first row dropped), and run the
HMM stage on them.  There is no validation step in between. -/
def runApp (train : TrainerFn) (rows : List (Nat × ℚ)) :
    HMMModel × List (Fin 2) × (Fin 2 → Label) :=
  runHMMStage train (appObservations ((fridaysOf rows).map Prod.snd))

/-- The per-week table as it stands after `src/app.py` line 39: Friday
dates as the row index, the closing-price column, and the returns column
(the first Friday row was dropped by `.iloc[1:]`). -/
structure FridaysTable where
  index : List Nat
  close : List ℚ
  returns : List ℚ

/-- The same table after `src/app.py` line 57 added the categorical
`'state'` column. -/
structure LabeledTable where
  index : List Nat
  close : List ℚ
  returns : List ℚ
  state : List Label

/-- `src/app.py` line 57:
`fridays['state'] = pd.Categorical(states).rename_categories(labels)` —
attach one label per decoded state as a new column; the existing columns
and index are untouched by a single-column assignment. -/
def addStateColumn (f : FridaysTable) (sts : List (Fin 2)) (lab : Fin 2 → Label) :
    LabeledTable :=
  { index := f.index
    close := f.close
    returns := f.returns
    state := sts.map lab }

/-- Modelled from the spec (§4.3, §8): one Baum-Welch M-step transition
re-estimate, `transitionMatrix i j = Σ_t ξ_t(i,j) / Σ_t γ_t(i)`, using the
forward-backward identity `γ_t(i) = Σ_j ξ_t(i,j)` for the denominator.
The EM loop itself lives in `hmmlearn`, not in `src/`. -/
def mStepTransition (xi : List (Fin 2 → Fin 2 → ℚ)) (i j : Fin 2) : ℚ :=
  (xi.map (fun x => x i j)).sum / (xi.map (fun x => x i 0 + x i 1)).sum

/-- Modelled from the spec (§4.2): what forward-backward hands to one
M-step — the time-1 state posterior `γ_1` and the summed pairwise
transition posteriors `Σ_t ξ_t`. -/
structure Posteriors where
  gamma1 : Fin 2 → ℚ
  xi : List (Fin 2 → Fin 2 → ℚ)

/-- Posterior quantities produced by a correct forward-backward pass:
`γ_1` is a probability distribution, the `ξ_t` are non-negative, and each
summed row mass `Σ_t Σ_j ξ_t(i,j)` is positive (every state has positive
occupation). -/
def ValidPosteriors (p : Posteriors) : Prop :=
  (∀ i, 0 ≤ p.gamma1 i) ∧ p.gamma1 0 + p.gamma1 1 = 1 ∧
  (∀ x ∈ p.xi, ∀ i j, 0 ≤ x i j) ∧
  (∀ i, 0 < (p.xi.map (fun x => x i 0 + x i 1)).sum)

/-- The trained parameters the claim C7 speaks about. -/
structure HMMParams where
  initialDistribution : Fin 2 → ℚ
  transitionMatrix : Fin 2 → Fin 2 → ℚ

/-- A valid probability vector over the two states. -/
def IsDist (v : Fin 2 → ℚ) : Prop := (∀ i, 0 ≤ v i) ∧ v 0 + v 1 = 1

/-- Each row of the matrix is a probability distribution. -/
def RowStochastic (a : Fin 2 → Fin 2 → ℚ) : Prop := ∀ i, IsDist (fun j => a i j)

/-- Modelled from the spec (§4.3 step 2): the M-step re-estimates
`initialDistribution` from `γ_1` and the transition matrix from the
normalized `ξ` sums. -/
def mStep (p : Posteriors) : HMMParams :=
  { initialDistribution := p.gamma1
    transitionMatrix := mStepTransition p.xi }

/-- Modelled from the spec (§4.3): the EM loop alternates an E-step
(forward-backward, abstracted as `fb`) with the M-step, for the configured
number of iterations. -/
def trainLoop (fb : HMMParams → Posteriors) : Nat → HMMParams → HMMParams
  | 0, p => p
  | n + 1, p => trainLoop fb n (mStep (fb p))

/-- A concrete stand-in for a fitted model, used to exercise the pipeline on
explicit inputs: it decodes every observation into state 0. -/
def constModel : HMMModel :=
  { startprob := fun _ => 1 / 2
    transmat := fun _ _ => 1 / 2
    means := fun _ => 42
    covars := fun _ => 1
    decode := fun obs => obs.map (fun _ => 0) }

/-- A concrete trainer that returns `constModel` for every seed and
sequence, used to run the pipeline on explicit inputs. -/
def constTrainer : TrainerFn := fun _ _ => constModel

/-- Concrete forward-backward posteriors used to exercise the EM loop:
uniform `γ_1` and a single uniform `ξ` summand. -/
def constPosteriors : Posteriors :=
  { gamma1 := fun _ => 1 / 2
    xi := [fun _ _ => 1 / 4] }

/-- A concrete E-step returning `constPosteriors` for every parameter
value. -/
def constFB : HMMParams → Posteriors := fun _ => constPosteriors

end VolApp

namespace VolApp

/-! ## Supporting lemmas -/

/-- The label dictionary takes exactly one of two shapes, according to the
NaN-aware comparison of the two within-state variances. -/
theorem labelsOf_cases (rs : List ℚ) (sts : List (Fin 2)) :
    (gtNaN (sampleVar (restrictToState rs sts 0)) (sampleVar (restrictToState rs sts 1)) = true ∧
      labelsOf rs sts 0 = Label.highVol ∧ labelsOf rs sts 1 = Label.lowVol) ∨
    (gtNaN (sampleVar (restrictToState rs sts 0)) (sampleVar (restrictToState rs sts 1)) = false ∧
      labelsOf rs sts 1 = Label.highVol ∧ labelsOf rs sts 0 = Label.lowVol) := by
  unfold labelsOf
  by_cases hg : gtNaN (sampleVar (restrictToState rs sts 0))
      (sampleVar (restrictToState rs sts 1)) = true
  · exact Or.inl ⟨hg, by simp [hg]⟩
  · exact Or.inr ⟨by simpa using hg, by simp [hg]⟩

/-- Any comparison against NaN is false. -/
theorem gtNaN_eq_false_of_none {a b : Option ℚ} (h : a = none ∨ b = none) :
    gtNaN a b = false := by
  rcases h with h | h
  · subst h; cases b <;> rfl
  · subst h; cases a <;> rfl

/-- Stripping the `some` wrappers that `returnsColumn` introduces. -/
theorem reduceOption_zipWith_some {α β γ : Type} (f : α → β → γ) :
    ∀ (l₁ : List α) (l₂ : List β),
      (List.zipWith (fun a b => some (f a b)) l₁ l₂).reduceOption = List.zipWith f l₁ l₂ := by
  intro l₁
  induction l₁ with
  | nil => intro l₂; rfl
  | cons a t ih =>
    intro l₂
    cases l₂ with
    | nil => rfl
    | cons b t₂ => simp [List.zipWith, List.reduceOption_cons_of_some, ih]

/-- The observation sequence is the elementwise percentage-change of
consecutive prices. -/
theorem appObservations_eq_zipWith (prices : List ℚ) :
    appObservations prices =
      List.zipWith (fun prev cur => 100 * (cur / prev - 1)) prices prices.tail := by
  unfold appObservations returnsColumn
  rw [List.tail_cons]
  exact reduceOption_zipWith_some _ prices prices.tail

/-- Dropping the undefined first return leaves one observation fewer than
there are prices. -/
theorem appObservations_length (prices : List ℚ) :
    (appObservations prices).length = prices.length - 1 := by
  rw [appObservations_eq_zipWith, List.length_zipWith, List.length_tail]
  exact Nat.min_eq_right (Nat.sub_le _ _)

/-- Splitting the summed row mass of the `ξ` sums into its two column
sums. -/
theorem sum_map_add_fin (xi : List (Fin 2 → Fin 2 → ℚ)) (i : Fin 2) :
    (xi.map (fun x => x i 0 + x i 1)).sum =
      (xi.map (fun x => x i 0)).sum + (xi.map (fun x => x i 1)).sum := by
  induction xi with
  | nil => simp
  | cons x t ih => simp [ih]; ring

/-- One M-step on valid posteriors yields a valid initial distribution and
a row-stochastic transition matrix. -/
theorem mStep_valid (p : Posteriors) (hp : ValidPosteriors p) :
    IsDist (mStep p).initialDistribution ∧ RowStochastic (mStep p).transitionMatrix := by
  obtain ⟨hg0, hg1, hxi, hpos⟩ := hp
  refine ⟨⟨hg0, hg1⟩, ?_⟩
  intro i
  constructor
  · intro j
    apply div_nonneg
    · apply List.sum_nonneg
      intro a ha
      obtain ⟨x, hx, rfl⟩ := List.mem_map.mp ha
      exact hxi x hx i j
    · exact le_of_lt (hpos i)
  · show mStepTransition p.xi i 0 + mStepTransition p.xi i 1 = 1
    unfold mStepTransition
    rw [div_add_div_same, ← sum_map_add_fin]
    exact div_self (ne_of_gt (hpos i))

/-- After at least one EM iteration with a valid E-step, the parameters
carry valid probability distributions, whatever the starting point. -/
theorem trainLoop_valid (fb : HMMParams → Posteriors)
    (hfb : ∀ q, ValidPosteriors (fb q)) :
    ∀ n : Nat, 1 ≤ n → ∀ q : HMMParams,
      IsDist (trainLoop fb n q).initialDistribution ∧
      RowStochastic (trainLoop fb n q).transitionMatrix := by
  intro n
  induction n with
  | zero => intro h; exact absurd h (by norm_num)
  | succ k ih =>
    intro _ q
    rcases Nat.eq_zero_or_pos k with hk | hk
    · subst hk
      simpa [trainLoop] using mStep_valid (fb q) (hfb q)
    · simpa [trainLoop] using ih hk (mStep (fb q))

/-- The concrete posteriors satisfy the validity conditions. -/
theorem constPosteriors_valid : ValidPosteriors constPosteriors := by
  refine ⟨fun i => by norm_num [constPosteriors], by norm_num [constPosteriors], ?_, ?_⟩
  · intro x hx i j
    simp only [constPosteriors, List.mem_singleton] at hx
    subst hx; norm_num
  · intro i; norm_num [constPosteriors]

end VolApp

namespace VolApp

/-! ## Claim theorems -/

/-- C1: for every observation sequence and decoded state path in which both
states carry a defined sample variance of their restricted returns (in
particular both states are visited), the labeler assigns "High Vol" to the
state whose sample variance is strictly larger and "Low Vol" to the other
state. -/
theorem labeler_assigns_highVol_to_larger_variance
    (rs : List ℚ) (sts : List (Fin 2)) (v0 v1 : ℚ)
    (h0 : sampleVar (restrictToState rs sts 0) = some v0)
    (h1 : sampleVar (restrictToState rs sts 1) = some v1) :
    (v1 < v0 → labelsOf rs sts 0 = Label.highVol ∧ labelsOf rs sts 1 = Label.lowVol) ∧
    (v0 < v1 → labelsOf rs sts 1 = Label.highVol ∧ labelsOf rs sts 0 = Label.lowVol) := by
  have hg : gtNaN (sampleVar (restrictToState rs sts 0)) (sampleVar (restrictToState rs sts 1)) =
      decide (v1 < v0) := by rw [h0, h1]; rfl
  constructor
  · intro hlt
    rcases labelsOf_cases rs sts with ⟨_, hA⟩ | ⟨hfalse, _⟩
    · exact hA
    · rw [hg] at hfalse; simp [hlt] at hfalse
  · intro hlt
    rcases labelsOf_cases rs sts with ⟨htrue, _⟩ | ⟨_, hB⟩
    · rw [hg] at htrue
      have hnot : ¬ v1 < v0 := asymm hlt
      simp [hnot] at htrue
    · exact hB

/-- Witness for C1: with returns [0, 10, 1, 2] decoded as [0, 0, 1, 1],
state 0 has variance 50, state 1 has variance 1/2, and the labeler marks
state 0 "High Vol" and state 1 "Low Vol". -/
theorem labeler_assigns_highVol_to_larger_variance_witness :
    sampleVar (restrictToState [0, 10, 1, 2] [0, 0, 1, 1] 0) = some 50 ∧
    sampleVar (restrictToState [0, 10, 1, 2] [0, 0, 1, 1] 1) = some (1 / 2) ∧
    labelsOf [0, 10, 1, 2] [0, 0, 1, 1] 0 = Label.highVol ∧
    labelsOf [0, 10, 1, 2] [0, 0, 1, 1] 1 = Label.lowVol := by
  have h0 : sampleVar (restrictToState ([0, 10, 1, 2] : List ℚ) [0, 0, 1, 1] 0) = some 50 := by
    norm_num [sampleVar, restrictToState, listMean]
  have h1 : sampleVar (restrictToState ([0, 10, 1, 2] : List ℚ) [0, 0, 1, 1] 1) =
      some (1 / 2) := by
    norm_num [sampleVar, restrictToState, listMean]
  have hc := (labeler_assigns_highVol_to_larger_variance
    [0, 10, 1, 2] [0, 0, 1, 1] 50 (1 / 2) h0 h1).1 (by norm_num)
  exact ⟨h0, h1, hc.1, hc.2⟩

/-- Counterexample for C2: with returns [3, 5, 9] decoded entirely into
state 1, state 0 is never visited and its sample variance is undefined
(NaN), yet the labeling step does not fail: it still assigns the labels,
giving "High Vol" to state 1 and "Low Vol" to the unvisited state 0. -/
theorem labeler_labels_despite_unvisited_state_cex :
    sampleVar (restrictToState [3, 5, 9] [1, 1, 1] 0) = none ∧
    labelsOf [3, 5, 9] [1, 1, 1] 1 = Label.highVol ∧
    labelsOf [3, 5, 9] [1, 1, 1] 0 = Label.lowVol := by
  norm_num [labelsOf, sampleVar, restrictToState, listMean, gtNaN]

/-- C2 as amended: whenever a within-state sample variance is undefined
(in particular when a state is unvisited), the labeler does not raise any
error; the NaN-aware comparison evaluates to false and it deterministically
assigns "High Vol" to state 1 and "Low Vol" to state 0 — even when state 1
is the unvisited one. -/
theorem labeler_defaults_state1_high_on_undefined_variance
    (rs : List ℚ) (sts : List (Fin 2))
    (h : sampleVar (restrictToState rs sts 0) = none ∨
         sampleVar (restrictToState rs sts 1) = none) :
    labelsOf rs sts 1 = Label.highVol ∧ labelsOf rs sts 0 = Label.lowVol := by
  rcases labelsOf_cases rs sts with ⟨htrue, _⟩ | ⟨_, hB⟩
  · rw [gtNaN_eq_false_of_none ?_] at htrue
    · exact absurd htrue (by simp)
    · rcases h with h | h
      · exact Or.inl h
      · exact Or.inr h
  · exact hB

/-- Witness for the amended C2: returns [2, 4, 8] decoded entirely into
state 0 leave state 1 with an undefined variance, and the labeler assigns
"High Vol" to the unvisited state 1. -/
theorem labeler_defaults_state1_high_on_undefined_variance_witness :
    (sampleVar (restrictToState [2, 4, 8] [0, 0, 0] 0) = none ∨
      sampleVar (restrictToState [2, 4, 8] [0, 0, 0] 1) = none) ∧
    labelsOf [2, 4, 8] [0, 0, 0] 1 = Label.highVol ∧
    labelsOf [2, 4, 8] [0, 0, 0] 0 = Label.lowVol := by
  have hh : sampleVar (restrictToState ([2, 4, 8] : List ℚ) [0, 0, 0] 0) = none ∨
      sampleVar (restrictToState ([2, 4, 8] : List ℚ) [0, 0, 0] 1) = none := by
    right; norm_num [sampleVar, restrictToState]
  exact ⟨hh, labeler_defaults_state1_high_on_undefined_variance [2, 4, 8] [0, 0, 0] hh⟩

/-- C3: two runs of the HMM stage on the identical observation sequence,
with the training function fixed (same library, same explicit seed 2606),
produce identical trained models, identical state paths, and identical
label assignments. -/
theorem pipeline_two_run_determinism (train : TrainerFn) (obs : List ℚ)
    (r₁ r₂ : HMMModel × List (Fin 2) × (Fin 2 → Label))
    (h₁ : r₁ = runHMMStage train obs) (h₂ : r₂ = runHMMStage train obs) :
    r₁.1 = r₂.1 ∧ r₁.2.1 = r₂.2.1 ∧ r₁.2.2 = r₂.2.2 := by
  subst h₁; subst h₂; exact ⟨rfl, rfl, rfl⟩

/-- Witness for C3: two runs on the concrete sequence [1, 2] with the
concrete trainer agree in every component. -/
theorem pipeline_two_run_determinism_witness :
    (runHMMStage constTrainer [1, 2]).1 = (runHMMStage constTrainer [1, 2]).1 ∧
    (runHMMStage constTrainer [1, 2]).2.1 = (runHMMStage constTrainer [1, 2]).2.1 ∧
    (runHMMStage constTrainer [1, 2]).2.2 = (runHMMStage constTrainer [1, 2]).2.2 :=
  pipeline_two_run_determinism constTrainer [1, 2] _ _ rfl rfl

/-- C4: for prices P_0, ..., P_M with M ≥ 1 (all nonzero), the observation
sequence has exactly M entries — one fewer than the price sequence — and
the entry at array position t-1 (the return at time t) equals
100 * (P_t - P_{t-1}) / P_{t-1}. -/
theorem weekly_returns_formula (prices : List ℚ) (hM : 2 ≤ prices.length)
    (hnz : ∀ p ∈ prices, p ≠ 0) :
    (appObservations prices).length = prices.length - 1 ∧
    ∀ t : Nat, 1 ≤ t → t < prices.length →
      ∃ pPrev pCur : ℚ, prices[t - 1]? = some pPrev ∧ prices[t]? = some pCur ∧
        (appObservations prices)[t - 1]? = some (100 * (pCur - pPrev) / pPrev) := by
  refine ⟨appObservations_length prices, ?_⟩
  intro t ht1 htlen
  obtain ⟨i, rfl⟩ : ∃ i, t = i + 1 := ⟨t - 1, (Nat.succ_pred_eq_of_pos ht1).symm⟩
  have hi : i < prices.length := Nat.lt_of_succ_lt htlen
  have hprev : prices[i]? = some (prices.get ⟨i, hi⟩) := List.getElem?_eq_getElem hi
  have hcur : prices[i + 1]? = some (prices.get ⟨i + 1, htlen⟩) := List.getElem?_eq_getElem htlen
  refine ⟨prices.get ⟨i, hi⟩, prices.get ⟨i + 1, htlen⟩, by simp [hprev], by simp [hcur], ?_⟩
  have hne : prices.get ⟨i, hi⟩ ≠ 0 := hnz _ (List.get_mem prices i hi)
  have htail : prices.tail[i]? = prices[i + 1]? := by
    rw [List.getElem?_tail]
  rw [appObservations_eq_zipWith, List.getElem?_zipWith']
  simp only [Nat.add_sub_cancel]
  rw [htail, hprev, hcur]
  simp only [Option.map_some', Option.some_bind]
  congr 1
  rw [div_sub_one hne, mul_div_assoc]

/-- Witness for C4: for prices [10, 20, 10] the observation sequence is the
two returns [100, -50]. -/
theorem weekly_returns_formula_witness :
    (2 ≤ ([10, 20, 10] : List ℚ).length) ∧
    (appObservations [10, 20, 10]).length = 2 ∧
    (appObservations [10, 20, 10])[0]? = some (100 : ℚ) ∧
    (appObservations [10, 20, 10])[1]? = some (-50 : ℚ) := by
  have hnz : ∀ p ∈ ([10, 20, 10] : List ℚ), p ≠ 0 := by
    intro p hp
    simp at hp
    rcases hp with rfl | rfl | rfl <;> norm_num
  have h := weekly_returns_formula [10, 20, 10] (by norm_num) hnz
  refine ⟨by norm_num, by simpa using h.1, ?_, ?_⟩
  · obtain ⟨prev, cur, hp, hc, hobs⟩ := h.2 1 (by norm_num) (by norm_num)
    simp at hp hc
    rw [← hp, ← hc] at hobs
    norm_num at hobs
    exact hobs
  · obtain ⟨prev, cur, hp, hc, hobs⟩ := h.2 2 (by norm_num) (by norm_num)
    simp at hp hc
    rw [← hp, ← hc] at hobs
    norm_num at hobs
    exact hobs

/-- Counterexample for C5: with a single Friday price the observation
sequence is empty (N = 0 < 2), yet the program does not reject the input —
the trainer is still invoked (its fitted model comes out of the pipeline)
and labels are still assigned. -/
theorem no_rejection_of_short_input_cex :
    appObservations ((fridaysOf [(4, 10)]).map Prod.snd) = [] ∧
    (runApp constTrainer [(4, 10)]).1 = constModel ∧
    (runApp constTrainer [(4, 10)]).2.2 1 = Label.highVol ∧
    (runApp constTrainer [(4, 10)]).2.2 0 = Label.lowVol := by
  refine ⟨rfl, rfl, ?_, ?_⟩ <;>
    norm_num [runApp, runHMMStage, fridaysOf, dayofweek, appObservations, returnsColumn,
      constTrainer, constModel, labelsOf, sampleVar, restrictToState, gtNaN]

/-- C5 as amended: the program performs no input-length validation at all —
for every input, including observation sequences with N < 2, the
observation sequence is handed unmodified to the HMM trainer with the
explicit seed 2606, and the pipeline proceeds to decoding and labeling. -/
theorem no_length_validation_before_training (train : TrainerFn) (rows : List (Nat × ℚ)) :
    (runApp train rows).1 = train 2606 (appObservations ((fridaysOf rows).map Prod.snd)) ∧
    (runApp train rows).2.1 =
      (train 2606 (appObservations ((fridaysOf rows).map Prod.snd))).decode
        (appObservations ((fridaysOf rows).map Prod.snd)) ∧
    (runApp train rows).2.2 =
      labelsOf (appObservations ((fridaysOf rows).map Prod.snd))
        ((train 2606 (appObservations ((fridaysOf rows).map Prod.snd))).decode
          (appObservations ((fridaysOf rows).map Prod.snd))) :=
  ⟨rfl, rfl, rfl⟩

/-- C6: the model is constructed with exactly the configuration the spec
fixes — two latent states, iteration cap 10000, a covariance structure in
{diagonal, full} (here: full), and an explicitly supplied random seed
(2606) rather than hidden global state. -/
theorem model_configuration_matches_spec :
    appModelConfig.n_components = 2 ∧
    appModelConfig.n_iter = 10000 ∧
    (appModelConfig.covariance_type = CovarianceType.diag ∨
      appModelConfig.covariance_type = CovarianceType.full) ∧
    appModelConfig.random_state = some 2606 :=
  ⟨rfl, rfl, Or.inr rfl, rfl⟩

/-- C7: after every training run (any number n ≥ 1 of EM iterations whose
E-step produces valid forward-backward posteriors, from any starting
parameters), the trained initial distribution has non-negative entries
summing to 1, and each row of the trained transition matrix has
non-negative entries summing to 1. -/
theorem trained_distributions_remain_stochastic (fb : HMMParams → Posteriors)
    (hfb : ∀ q, ValidPosteriors (fb q)) (n : Nat) (hn : 1 ≤ n) (p0 : HMMParams) :
    ((∀ i, 0 ≤ (trainLoop fb n p0).initialDistribution i) ∧
      (trainLoop fb n p0).initialDistribution 0 +
        (trainLoop fb n p0).initialDistribution 1 = 1) ∧
    ∀ i : Fin 2, (∀ j, 0 ≤ (trainLoop fb n p0).transitionMatrix i j) ∧
      (trainLoop fb n p0).transitionMatrix i 0 +
        (trainLoop fb n p0).transitionMatrix i 1 = 1 := by
  obtain ⟨h1, h2⟩ := trainLoop_valid fb hfb n hn p0
  exact ⟨h1, h2⟩

/-- Witness for C7: one EM iteration with the concrete valid E-step, from
uniform starting parameters, yields valid distributions. -/
theorem trained_distributions_remain_stochastic_witness :
    ((∀ i, 0 ≤ (trainLoop constFB 1 ⟨fun _ => 1 / 2, fun _ _ => 1 / 2⟩).initialDistribution i) ∧
      (trainLoop constFB 1 ⟨fun _ => 1 / 2, fun _ _ => 1 / 2⟩).initialDistribution 0 +
        (trainLoop constFB 1 ⟨fun _ => 1 / 2, fun _ _ => 1 / 2⟩).initialDistribution 1 = 1) ∧
    ∀ i : Fin 2,
      (∀ j, 0 ≤ (trainLoop constFB 1 ⟨fun _ => 1 / 2, fun _ _ => 1 / 2⟩).transitionMatrix i j) ∧
      (trainLoop constFB 1 ⟨fun _ => 1 / 2, fun _ _ => 1 / 2⟩).transitionMatrix i 0 +
        (trainLoop constFB 1 ⟨fun _ => 1 / 2, fun _ _ => 1 / 2⟩).transitionMatrix i 1 = 1 :=
  trained_distributions_remain_stochastic constFB (fun _ => constPosteriors_valid)
    1 (by norm_num) _

/-- C8: the weekly series consists of exactly the downloaded rows whose
date falls on the fixed anchor weekday (Friday, index 4), it is a
sub-sequence of the chronologically ordered download (so it stays
chronological), and weeks without a Friday price simply contribute no row —
nothing is interpolated. -/
theorem friday_anchor_sampling (rows : List (Nat × ℚ))
    (hsorted : rows.Pairwise (fun a b => a.1 < b.1)) :
    List.Sublist (fridaysOf rows) rows ∧
    (∀ x, x ∈ fridaysOf rows ↔ x ∈ rows ∧ dayofweek x.1 = 4) ∧
    (fridaysOf rows).Pairwise (fun a b => a.1 < b.1) := by
  refine ⟨List.filter_sublist rows, ?_, hsorted.sublist (List.filter_sublist rows)⟩
  intro x
  simp [fridaysOf, List.mem_filter]

/-- Witness for C8: on the concrete download with days 1 and 8 being
Fridays (and 4, 11 Mondays), the Friday rows are a sub-sequence and the
membership characterization holds for the row (8, 7). -/
theorem friday_anchor_sampling_witness :
    List.Sublist (fridaysOf [(1, 5), (4, 10), (8, 7), (11, 20)])
      [(1, 5), (4, 10), (8, 7), (11, 20)] ∧
    ((8, 7) ∈ fridaysOf [(1, 5), (4, 10), (8, 7), (11, 20)] ↔
      (8, 7) ∈ ([(1, 5), (4, 10), (8, 7), (11, 20)] : List (Nat × ℚ)) ∧ dayofweek 8 = 4) := by
  have h := friday_anchor_sampling [(1, 5), (4, 10), (8, 7), (11, 20)] (by norm_num)
  exact ⟨h.1, h.2.1 (8, 7)⟩

/-- C9: the label assignment is total and injective on the two states —
both states always receive a label and the two labels are always distinct —
and in every case where the comparison var_0 > var_1 does not hold (the
comparison is false, a tie, or an undefined variance on either side),
state 1 is deterministically labeled "High Vol" and state 0 "Low Vol". -/
theorem label_assignment_total_injective_default (rs : List ℚ) (sts : List (Fin 2)) :
    (∀ s : Fin 2, labelsOf rs sts s = Label.highVol ∨ labelsOf rs sts s = Label.lowVol) ∧
    labelsOf rs sts 0 ≠ labelsOf rs sts 1 ∧
    (gtNaN (sampleVar (restrictToState rs sts 0)) (sampleVar (restrictToState rs sts 1)) = false →
      labelsOf rs sts 1 = Label.highVol ∧ labelsOf rs sts 0 = Label.lowVol) ∧
    (∀ v : ℚ, sampleVar (restrictToState rs sts 0) = some v →
      sampleVar (restrictToState rs sts 1) = some v →
      labelsOf rs sts 1 = Label.highVol ∧ labelsOf rs sts 0 = Label.lowVol) ∧
    ((sampleVar (restrictToState rs sts 0) = none ∨
        sampleVar (restrictToState rs sts 1) = none) →
      labelsOf rs sts 1 = Label.highVol ∧ labelsOf rs sts 0 = Label.lowVol) := by
  have hfalse : gtNaN (sampleVar (restrictToState rs sts 0))
      (sampleVar (restrictToState rs sts 1)) = false →
      labelsOf rs sts 1 = Label.highVol ∧ labelsOf rs sts 0 = Label.lowVol := by
    intro hf
    rcases labelsOf_cases rs sts with ⟨htrue, _⟩ | ⟨_, hB⟩
    · rw [hf] at htrue; exact absurd htrue (by simp)
    · exact hB
  refine ⟨?_, ?_, hfalse, ?_, ?_⟩
  · intro s
    rcases labelsOf_cases rs sts with ⟨_, hA0, hA1⟩ | ⟨_, hB1, hB0⟩
    · fin_cases s
      · exact Or.inl hA0
      · exact Or.inr hA1
    · fin_cases s
      · exact Or.inr hB0
      · exact Or.inl hB1
  · rcases labelsOf_cases rs sts with ⟨_, hA0, hA1⟩ | ⟨_, hB1, hB0⟩
    · rw [hA0, hA1]; simp
    · rw [hB0, hB1]; simp
  · intro v h0 h1
    apply hfalse
    rw [h0, h1]
    simp [gtNaN]
  · intro h
    exact hfalse (gtNaN_eq_false_of_none h)

/-- Witness for C9: on returns [1, 2, 4] decoded entirely into state 0 the
two labels are distinct and the default branch labels state 1 "High Vol". -/
theorem label_assignment_total_injective_default_witness :
    labelsOf [1, 2, 4] [0, 0, 0] 0 ≠ labelsOf [1, 2, 4] [0, 0, 0] 1 ∧
    labelsOf [1, 2, 4] [0, 0, 0] 1 = Label.highVol := by
  refine ⟨(label_assignment_total_injective_default [1, 2, 4] [0, 0, 0]).2.1, ?_⟩
  exact ((label_assignment_total_injective_default [1, 2, 4] [0, 0, 0]).2.2.1
    (by norm_num [gtNaN, sampleVar, restrictToState])).1

/-- C10: attaching the decoded-state column leaves the rest of the table
unchanged — the row index, the closing-price column, and the returns column
are identical before and after — and the added column has exactly one entry
per row. -/
theorem state_column_is_frame_preserving (f : FridaysTable) (sts : List (Fin 2))
    (lab : Fin 2 → Label) (h : sts.length = f.index.length) :
    (addStateColumn f sts lab).index = f.index ∧
    (addStateColumn f sts lab).close = f.close ∧
    (addStateColumn f sts lab).returns = f.returns ∧
    (addStateColumn f sts lab).state.length = f.index.length := by
  refine ⟨rfl, rfl, rfl, ?_⟩
  simp [addStateColumn, h]

/-- Witness for C10: on a concrete two-row table with its decoded states,
the index survives unchanged and the state column has one entry per row. -/
theorem state_column_is_frame_preserving_witness :
    (addStateColumn ⟨[1, 8], [5, 7], [10, 20]⟩ [0, 1] (labelsOf [10, 20] [0, 1])).index
      = [1, 8] ∧
    (addStateColumn ⟨[1, 8], [5, 7], [10, 20]⟩ [0, 1] (labelsOf [10, 20] [0, 1])).state.length
      = 2 := by
  have h := state_column_is_frame_preserving ⟨[1, 8], [5, 7], [10, 20]⟩ [0, 1]
    (labelsOf [10, 20] [0, 1]) (by norm_num)
  exact ⟨h.1, h.2.2.2⟩

end VolApp
